import Mathlib

/-!
Verification development for the x-ray schema-resolution engine.

The JavaScript sources embedded here:
* `lib/walk.js` — the generic recursive schema walker (`jwalk` below);
* the main module (`Xray`, `WalkHTML`, `node`, `next`) — leaf dispatch,
  the node source dispatch and the pagination controller;
* `lib/stream.js` — stream emission helpers (event level only).

External collaborators (cheerio, the crawler, `lib/resolve.js`,
`lib/util.js`, `lib/validate-types.js` — the latter three absent from the
sources) are modelled as abstract capability records or, where a claim
depends on them, as definitions modelled from the specification; those are
marked `Modelled from the spec:` in their doc comments.
-/

namespace XRayModel

/-- JavaScript values as they occur in x-ray schemas and walk results.
`undef` is JavaScript `undefined`, distinct from `vnull` (`null`).
`fnSel` and `regexp` carry an identifier resolved by the environment
(the function body and the regex engine are external).  `custom` is a
class instance used as a custom-type marker. `num`/`boolean` are the
unsupported leaf types. -/
inductive JVal where
  | vnull
  | undef
  | str (s : String)
  | num (n : Int)
  | boolean (b : Bool)
  | fnSel (fid : Nat)
  | regexp (rid : Nat)
  | custom (tag : Nat)
  | arr (xs : List JVal)
  | obj (kvs : List (String × JVal))
deriving Repr, Inhabited

/-- Error values flowing through the callbacks: a fetch error passed
through from the crawler, a `TypeError` from strict validation, or an
error signalled by a user function / custom handler. -/
inductive XErr where
  | fetchError (msg : String)
  | typeError (path : String) (got : String)
  | userError (msg : String)
deriving Repr, DecidableEq, Inhabited

/-- `lib/walk.js`: the plain-object test —
`isObject(value) && !(value instanceof RegExp) && typeof value !== 'function'
&& (value.constructor === Object || value.constructor === undefined)`.
In the value model only `obj` satisfies it: arrays have constructor
`Array`, regexps `RegExp`, custom markers their own class, functions are
excluded explicitly, and primitives/null/undefined fail `isObject`. -/
def isPlainObject : JVal → Bool
  | .obj _ => true
  | _ => false

/-- The store step of `walk.js`:
`if (undefined !== value && value !== '') out[k] = value` — a value of
`undefined` (`none`) or the empty string leaves its key out. -/
def addEntry (k : String) (r : Option JVal) (tail : List (String × JVal)) :
    List (String × JVal) :=
  match r with
  | none => tail
  | some (.str "") => tail
  | some rv => (k, rv) :: tail

mutual
/-- `lib/walk.js` `walk(value, fn, done, key)`, sequentialised: a plain
object walks each property (in key order) and collects the results via
`addEntry`; any other value is handed to `fn` together with its key.
Errors short-circuit (Batch is fail-fast). -/
def jwalk (fn : JVal → Option String → Except XErr (Option JVal)) :
    JVal → Option String → Except XErr (Option JVal)
  | .obj kvs, _ => do
      let out ← jwalkPairs fn kvs
      pure (some (.obj out))
  | v, key => fn v key

/-- The property loop of `walk.js` over a plain object's entries. -/
def jwalkPairs (fn : JVal → Option String → Except XErr (Option JVal)) :
    List (String × JVal) → Except XErr (List (String × JVal))
  | [] => pure []
  | (k, v) :: rest => do
      let r ← jwalk fn v (some k)
      let tail ← jwalkPairs fn rest
      pure (addEntry k r tail)
end

/-- A document context: a cheerio document or narrowed selection together
with the leaf resolver over it.  The capabilities are those the walker
consumes: `resolveSel` is `resolve($, root(scope), str, filters)` (the
extracted, filtered scalar for a string selector; `none` models
JavaScript `undefined` for an unmatched selector), `resolveArrSel` the
multi-value form for a `[string]` selector (document order),
`fullText` the text of the context (`$.root().text()` / `$.text()`),
and `scopeElems` the elements matched by the instance scope in document
order, each narrowed to its own context. -/
inductive DocCtx where
  | mk (resolveSel : String → Option String)
       (resolveArrSel : String → List String)
       (fullText : String)
       (scopeElems : List DocCtx)

def DocCtx.resolveSel : DocCtx → String → Option String
  | .mk r _ _ _ => r

def DocCtx.resolveArrSel : DocCtx → String → List String
  | .mk _ r _ _ => r

def DocCtx.fullText : DocCtx → String
  | .mk _ _ t _ => t

def DocCtx.scopeElems : DocCtx → List DocCtx
  | .mk _ _ _ es => es

/-- A registered custom type: its discriminator (`validator`) and its
handler `handler(value, $, scope, filters, next)` with the instance scope
and filters baked in. -/
def CustomEntry : Type :=
  (JVal → Bool) × (JVal → DocCtx → Except XErr (Option JVal))

/-- The per-instance environment: function-selector bodies and the regex
engine (external collaborators, looked up by identifier), the registered
custom types in registration order, and the strict flag. -/
structure XEnv where
  fnSels : Nat → DocCtx → Except XErr (Option JVal)
  regexMatch : Nat → String → Option (String × Option String)
  customTypes : List CustomEntry
  strict : Bool

/-- The custom-type scan of `WalkHTML` (registration order, first
discriminator that matches wins):
`for (const typeName in customTypes) { if (typeConfig.validator &&
typeConfig.validator(v)) return typeConfig.handler(...) }`. -/
def findCustom (cts : List CustomEntry) (v : JVal) :
    Option (JVal → DocCtx → Except XErr (Option JVal)) :=
  match cts with
  | [] => none
  | (check, handler) :: rest =>
      if check v then some handler else findCustom rest v

/-- JavaScript `typeof v === 'object'` over the value model (`null`,
regexps, class instances, arrays and plain objects). -/
def jsTypeofObject : JVal → Bool
  | .vnull => true
  | .regexp _ => true
  | .custom _ => true
  | .arr _ => true
  | .obj _ => true
  | _ => false

/-- The JavaScript type name reported for a value by the validator. -/
def jsTypeName : JVal → String
  | .vnull => "null"
  | .undef => "undefined"
  | .str _ => "string"
  | .num _ => "number"
  | .boolean _ => "boolean"
  | .fnSel _ => "function"
  | .regexp _ => "regexp"
  | .custom _ => "object"
  | .arr _ => "array"
  | .obj _ => "object"

mutual
/-- Modelled from the spec: `lib/validate-types.js` is absent from the
sources; only its call sites, tests and documentation are present.
`validateType` accepts string, function, regexp, null, undefined,
`[string]`, `[mapping]` (recursively), non-empty plain objects
(recursively, extending the key path) and values matched by a registered
custom-type discriminator; everything else is invalid, reported with the
offending key path and the observed JS type name. -/
def validateType (customOk : JVal → Bool) : JVal → String → Option (String × String)
  | .vnull, _ => none
  | .undef, _ => none
  | .str _, _ => none
  | .fnSel _, _ => none
  | .regexp _, _ => none
  | .arr [], p => some (p, "array")
  | .arr (.str _ :: _), _ => none
  | .arr (.obj [] :: _), p => some (p, "object")
  | .arr (.obj kvs :: _), p => validatePairs customOk kvs p
  | .arr (_ :: _), p => some (p, "array")
  | .obj [], p => some (p, "object")
  | .obj kvs, p => validatePairs customOk kvs p
  | v, p => if customOk v then none else some (p, jsTypeName v)

/-- Recursion of the validator over a mapping's entries, extending the
key path per entry; the first offending entry is reported. -/
def validatePairs (customOk : JVal → Bool) :
    List (String × JVal) → String → Option (String × String)
  | [], _ => none
  | (k, v) :: rest, p =>
      match validateType customOk v (p ++ "." ++ k) with
      | some e => some e
      | none => validatePairs customOk rest p
end

/-- Whether some registered custom-type discriminator accepts the value
(the validator consults the registered custom types). -/
def customOkOf (env : XEnv) (v : JVal) : Bool :=
  env.customTypes.any fun ct => ct.1 v

/-- The unknown-type fallthrough of `WalkHTML` (strict: re-validate and
fail with a `TypeError`; permissive: `return next()`, i.e. no value). -/
def unknownLeaf (env : XEnv) (v : JVal) (key : Option String) :
    Except XErr (Option JVal) :=
  if env.strict then
    match validateType (customOkOf env) v (key.getD "") with
    | some (p, t) => throw (.typeError p t)
    | none => pure none
  else
    pure none

/-- Leaf dispatch for the value kinds reaching the custom-type scan that
are not arrays (numbers, booleans, class instances). -/
def leafOther (env : XEnv) (v : JVal) (ctx : DocCtx) (key : Option String) :
    Except XErr (Option JVal) :=
  match findCustom env.customTypes v with
  | some h => h v ctx
  | none => unknownLeaf env v key

/-- Modelled from the spec: `lib/util.js` (`compact`) is absent from the
sources.  The sequence rule assigns results to output slots by element
index; an element whose sub-walk produced no value contributes no slot. -/
def compact (xs : List (Option JVal)) : List JVal :=
  xs.filterMap id

mutual
/-- The schema walk of `WalkHTML`: `walk.js` recursion (plain objects)
fused with `WalkHTML`'s per-leaf dispatch, in source order:
null/undefined, string, function, RegExp, custom-type scan, array
(`[string]` / `[mapping]` over the scope elements), unknown-type
fallthrough. -/
def walkVal (env : XEnv) : JVal → DocCtx → Option String → Except XErr (Option JVal)
  | .obj kvs, ctx, _ => do
      let out ← walkPairs env kvs ctx
      pure (some (.obj out))
  | .vnull, _, _ => pure (some .vnull)
  | .undef, _, _ => pure (some .vnull)
  | .str s, ctx, _ => pure ((ctx.resolveSel s).map .str)
  | .fnSel fid, ctx, _ => env.fnSels fid ctx
  | .regexp rid, ctx, _ =>
      (match env.regexMatch rid ctx.fullText with
       | none => pure (some .vnull)
       | some (full, grp) => pure (some (.str (grp.getD full))))
  | .num n, ctx, key => leafOther env (.num n) ctx key
  | .boolean b, ctx, key => leafOther env (.boolean b) ctx key
  | .custom t, ctx, key => leafOther env (.custom t) ctx key
  | .arr xs, ctx, key =>
      (match findCustom env.customTypes (.arr xs) with
       | some h => h (.arr xs) ctx
       | none =>
          match xs with
          | .str s :: _ => pure (some (.arr ((ctx.resolveArrSel s).map JVal.str)))
          | x :: _ =>
              if jsTypeofObject x then
                match ctx.scopeElems with
                | [] => pure (some (.arr []))
                | e :: es => do
                    let rs ← walkElems env x (e :: es)
                    pure (some (.arr (compact rs)))
              else unknownLeaf env (.arr xs) key
          | [] => unknownLeaf env (.arr xs) key)

/-- The property loop of `walk.js` applied to a mapping's entries under
the `WalkHTML` leaf callback: a value of `undefined` or `""` leaves its
key out of the output (`addEntry`). -/
def walkPairs (env : XEnv) : List (String × JVal) → DocCtx → Except XErr (List (String × JVal))
  | [], _ => pure []
  | (k, v) :: rest, ctx => do
      let r ← walkVal env v ctx (some k)
      let tail ← walkPairs env rest ctx
      pure (addEntry k r tail)

/-- The per-element sub-walks of the `[mapping]` branch: each scope
element is walked independently against the element schema; the first
error aborts the whole sequence. -/
def walkElems (env : XEnv) (v0 : JVal) : List DocCtx → Except XErr (List (Option JVal))
  | [] => pure []
  | c :: cs => do
      let r ← walkVal env v0 c none
      let rs ← walkElems env v0 cs
      pure (r :: rs)
end

/-- `WalkHTML`: in strict mode run the type validator over the whole
schema (root path `selector`) before walking; then walk. -/
def walkHTML (env : XEnv) (sel : JVal) (ctx : DocCtx) : Except XErr (Option JVal) := do
  if env.strict then
    match validateType (customOkOf env) sel "selector" with
    | some (p, t) => throw (.typeError p t)
    | none => pure ()
  walkVal env sel ctx none

/-! ## Pagination controller (`next` in the main module) -/

/-- One pagination cycle as observed by `next`: either the cycle failed
(a fetch error or a walk error delivered to `next(err)`), or the page's
walked value together with the candidate next-page URL —
`resolve($, false, paginate, filters)` when `isUrl` accepts it, `none`
otherwise (`lib/resolve.js` and `isUrl` are external to the controller). -/
inductive Cycle where
  | fail (e : XErr)
  | page (obj : JVal) (nextUrl : Option String)

/-- Pagination configuration of a node: whether `.paginate(sel)` was set
and the optional `.abort(validator)` predicate. -/
structure PagCfg where
  paginate : Bool
  abort : Option (JVal → String → Bool)

/-- The observable outcome of a pagination run: the terminal reports
delivered to the result callback `fn` (`.error e` for `fn(err)`,
`.ok v` for `fn(null, v)`), the stream emissions `(data, isEnd)`, the
invocations of the abort predicate, the number of cycles processed, and
the final internal `pages` buffer. -/
structure RunRes where
  terms : List (Except XErr JVal)
  streamed : List (JVal × Bool)
  abortCalls : List (JVal × String)
  consumed : Nat
  buf : List JVal

/-- `state.limit` with `Infinity` as `none`; `--state.limit` and
`limit <= 0` translate pointwise (`Infinity - 1 = Infinity`,
`Infinity <= 0` is false). -/
def decLimit : Option Int → Option Int
  | none => none
  | some n => some (n - 1)

def limitLE0 : Option Int → Bool
  | none => false
  | some n => decide (n ≤ 0)

/-- `if (isArray(obj)) pages = pages.concat(obj); else pages.push(obj)`. -/
def incorporate (pages : List JVal) : JVal → List JVal
  | .arr xs => pages ++ xs
  | v => pages ++ [v]

/-- The `next` callback of the main module, run over the sequence of
cycle results.  Each cycle: an error reports it; otherwise the limit is
decremented; without pagination the walked value is reported; with
pagination the page is incorporated into the buffer, then in order —
limit exhausted, next-page URL unresolvable, abort predicate true — the
buffer is reported; otherwise the page streams and the next cycle runs.
An empty remaining trace models a request still in flight: no report. -/
def runNext (cfg : PagCfg) : Option Int → List JVal → List Cycle → RunRes
  | _, pages, [] =>
      { terms := [], streamed := [], abortCalls := [], consumed := 0, buf := pages }
  | _, pages, .fail e :: _ =>
      { terms := [.error e], streamed := [], abortCalls := [], consumed := 1, buf := pages }
  | lim, pages, .page obj nextUrl :: rest =>
      let lim2 := decLimit lim
      if cfg.paginate then
        let pages2 := incorporate pages obj
        if limitLE0 lim2 then
          { terms := [.ok (.arr pages2)], streamed := [(obj, true)],
            abortCalls := [], consumed := 1, buf := pages2 }
        else
          match nextUrl with
          | none =>
              { terms := [.ok (.arr pages2)], streamed := [(obj, true)],
                abortCalls := [], consumed := 1, buf := pages2 }
          | some url =>
              match cfg.abort with
              | some check =>
                  if check obj url then
                    { terms := [.ok (.arr pages2)], streamed := [(obj, true)],
                      abortCalls := [(obj, url)], consumed := 1, buf := pages2 }
                  else
                    let tail := runNext cfg lim2 pages2 rest
                    { terms := tail.terms, streamed := (obj, false) :: tail.streamed,
                      abortCalls := (obj, url) :: tail.abortCalls,
                      consumed := 1 + tail.consumed, buf := tail.buf }
              | none =>
                  let tail := runNext cfg lim2 pages2 rest
                  { terms := tail.terms, streamed := (obj, false) :: tail.streamed,
                    abortCalls := tail.abortCalls,
                    consumed := 1 + tail.consumed, buf := tail.buf }
      else
        { terms := [.ok obj], streamed := [(obj, true)],
          abortCalls := [], consumed := 1, buf := pages }

/-- Follows the claim's words rather than the source, for comparison:
identical to `runNext` except that the abort predicate receives the
accumulated result so far (the buffer including the current page) as its
first argument instead of the current page's walked value. -/
def runNextSpecAbort (cfg : PagCfg) : Option Int → List JVal → List Cycle → RunRes
  | _, pages, [] =>
      { terms := [], streamed := [], abortCalls := [], consumed := 0, buf := pages }
  | _, pages, .fail e :: _ =>
      { terms := [.error e], streamed := [], abortCalls := [], consumed := 1, buf := pages }
  | lim, pages, .page obj nextUrl :: rest =>
      let lim2 := decLimit lim
      if cfg.paginate then
        let pages2 := incorporate pages obj
        if limitLE0 lim2 then
          { terms := [.ok (.arr pages2)], streamed := [(obj, true)],
            abortCalls := [], consumed := 1, buf := pages2 }
        else
          match nextUrl with
          | none =>
              { terms := [.ok (.arr pages2)], streamed := [(obj, true)],
                abortCalls := [], consumed := 1, buf := pages2 }
          | some url =>
              match cfg.abort with
              | some check =>
                  if check (.arr pages2) url then
                    { terms := [.ok (.arr pages2)], streamed := [(obj, true)],
                      abortCalls := [(.arr pages2, url)], consumed := 1, buf := pages2 }
                  else
                    let tail := runNextSpecAbort cfg lim2 pages2 rest
                    { terms := tail.terms, streamed := (obj, false) :: tail.streamed,
                      abortCalls := (.arr pages2, url) :: tail.abortCalls,
                      consumed := 1 + tail.consumed, buf := tail.buf }
              | none =>
                  let tail := runNextSpecAbort cfg lim2 pages2 rest
                  { terms := tail.terms, streamed := (obj, false) :: tail.streamed,
                    abortCalls := tail.abortCalls,
                    consumed := 1 + tail.consumed, buf := tail.buf }
      else
        { terms := [.ok obj], streamed := [(obj, true)],
          abortCalls := [], consumed := 1, buf := pages }

/-- A cycle that forces a terminal transition regardless of limit and
abort configuration: an error, or an unresolvable next-page target. -/
def isTrigger : Cycle → Bool
  | .fail _ => true
  | .page _ none => true
  | .page _ (some _) => false

/-! ## `node` source dispatch and event order -/

/-- The run's source value as classified by `node`: a URL, a truthy
non-URL string (raw HTML), or a falsy value. -/
inductive Source where
  | url (u : String)
  | html (h : String)
  | falsy

/-- `scope && ~scope.indexOf('@')`: a truthy scope string containing the
character `@`. -/
def scopeHasAt : Option String → Bool
  | none => false
  | some s => !(s == "") && s.toList.contains '@'

/-- Which document the first cycle walks. -/
inductive DocChoice where
  | fetched (u : String)
  | inline (h : String)
  | emptyDoc
deriving Repr, DecidableEq

/-- The source dispatch of `node` (in source order): a URL source is
fetched; else a scope containing `@` is resolved against the source
(`scopeRes` is the resolved value when `isUrl` accepts it) and fetched,
falling back to the empty document; else a truthy source is loaded as
inline HTML; else the empty document is walked. -/
def nodeDispatch (src : Source) (scope : Option String) (scopeRes : Option String) :
    DocChoice :=
  match src with
  | .url u => .fetched u
  | src2 =>
      if scopeHasAt scope then
        match scopeRes with
        | some u => .fetched u
        | none => .emptyDoc
      else
        match src2 with
        | .html h => .inline h
        | _ => .emptyDoc

/-- Activity events of the first cycle of a run. -/
inductive NodeEv where
  | fetch (u : String)
  | validate
  | walkStart
deriving Repr, DecidableEq

/-- `WalkHTML` event order: the strict-mode validation (when enabled)
happens at the start of the walk, then the schema walk begins. -/
def walkHTMLEvents (strict : Bool) : List NodeEv :=
  (if strict then [NodeEv.validate] else []) ++ [NodeEv.walkStart]

/-- Activity of the first cycle: a fetched document produces its network
request before `WalkHTML` runs; inline HTML and the empty document go
straight to `WalkHTML`. -/
def nodeEvents (strict : Bool) (src : Source) (scope : Option String)
    (scopeRes : Option String) : List NodeEv :=
  match nodeDispatch src scope scopeRes with
  | .fetched u => NodeEv.fetch u :: walkHTMLEvents strict
  | .inline _ => walkHTMLEvents strict
  | .emptyDoc => walkHTMLEvents strict

def isFetchEv : NodeEv → Bool
  | .fetch _ => true
  | _ => false

/-- No network fetch occurs before the first validation event. -/
def validateBeforeFetch (evs : List NodeEv) : Bool :=
  ((evs.takeWhile fun e => e ≠ NodeEv.validate).filter isFetchEv).isEmpty

/-- The document context of `load('')`: nothing matches, the text is
empty, the scope selects nothing. -/
def emptyCtx : DocCtx :=
  .mk (fun _ => none) (fun _ => []) "" []

mutual
/-- Schemas containing no function selector (whose foreign body alone can
signal an error once no custom types are registered). -/
def noFnSel : JVal → Bool
  | .fnSel _ => false
  | .arr xs => noFnSelList xs
  | .obj kvs => noFnSelPairs kvs
  | _ => true

def noFnSelList : List JVal → Bool
  | [] => true
  | x :: xs => noFnSel x && noFnSelList xs

def noFnSelPairs : List (String × JVal) → Bool
  | [] => true
  | (_, v) :: rest => noFnSel v && noFnSelPairs rest
end

/-! ## Completion-order model for sequence sub-walks -/

/-- The `out[i] = obj` sparse-array assignment of the `[mapping]` branch:
starting from an empty slot array, each sub-walk completion — in
arbitrary completion order — writes its result at its element index. -/
def fillSlots (rs : List (Option JVal)) (order : List Nat) : List (Option JVal) :=
  order.foldl (fun acc i => acc.set i (rs[i]?.getD none)) (List.replicate rs.length none)

/-! ## Concrete fixtures used by witnesses and counterexamples -/

/-- A permissive-mode environment with no custom types and inert
collaborators. -/
def plainEnv : XEnv :=
  ⟨fun _ _ => pure none, fun _ _ => none, [], false⟩

/-- A context resolving every string selector to the empty string. -/
def emptyStrCtx : DocCtx :=
  .mk (fun _ => some "") (fun _ => []) "" []

/-- An abort predicate true exactly on the walked value of page 2. -/
def abortOnPage2 : JVal → String → Bool := fun v _ =>
  match v with
  | .str s => s == "page2"
  | _ => false

/-- Pagination on, with `abortOnPage2` installed. -/
def cfgAbort2 : PagCfg := ⟨true, some abortOnPage2⟩

/-- Pagination on, no abort predicate. -/
def cfgPlain : PagCfg := ⟨true, none⟩

/-- Three pages, all with resolvable next-page targets. -/
def trace3 : List Cycle :=
  [.page (.str "page1") (some "u2"), .page (.str "page2") (some "u3"),
   .page (.str "page3") (some "u4")]

/-- Three pages whose third has no resolvable next-page target. -/
def trace3End : List Cycle :=
  [.page (.str "page1") (some "u2"), .page (.str "page2") (some "u3"),
   .page (.str "page3") none]

/-- A scope element whose every selector resolves to the given text. -/
def elemCtx (v : String) : DocCtx :=
  .mk (fun _ => some v) (fun _ => []) v []

/-- A document whose instance scope matches two elements, in document
order `one`, `two`. -/
def seqCtx : DocCtx :=
  .mk (fun _ => none) (fun _ => []) "" [elemCtx "one", elemCtx "two"]

/-! ## Theorems -/

/-- Auxiliary: the slot-filling fold preserves the slot-array length. -/
theorem foldl_set_length (rs : List (Option JVal)) (order : List Nat)
    (acc : List (Option JVal)) :
    (order.foldl (fun a i => a.set i (rs[i]?.getD none)) acc).length = acc.length := by
  induction order generalizing acc with
  | nil => rfl
  | cons i rest ih => simp [List.foldl_cons, ih]

/-- Auxiliary: after the slot-filling fold, a covered in-range slot holds
the sub-walk result for its index and every other slot is untouched. -/
theorem foldl_set_getElem (rs : List (Option JVal)) (order : List Nat)
    (acc : List (Option JVal)) (hl : acc.length = rs.length) (j : Nat) :
    (order.foldl (fun a i => a.set i (rs[i]?.getD none)) acc)[j]?
      = if j ∈ order ∧ j < rs.length then rs[j]? else acc[j]? := by
  induction order generalizing acc with
  | nil => simp
  | cons i rest ih =>
      rw [List.foldl_cons, ih (acc.set i (rs[i]?.getD none)) (by simp [hl])]
      by_cases hjr : j ∈ rest ∧ j < rs.length
      · simp [hjr, List.mem_cons, hjr.1, hjr.2]
      · by_cases hij : j = i
        · subst hij
          by_cases hlt : j < rs.length
          · rw [if_neg hjr, if_pos ⟨List.mem_cons_self j rest, hlt⟩]
            rw [List.getElem?_set_self (by omega)]
            rw [List.getElem?_eq_getElem hlt]
            rfl
          · rw [if_neg hjr, if_neg (by tauto)]
            rw [List.getElem?_eq_none (by simp [hl]; omega),
              List.getElem?_eq_none (by omega)]
        · rw [if_neg hjr, List.getElem?_set_ne (by omega)]
          have : ¬(j ∈ i :: rest ∧ j < rs.length) := by
            rintro ⟨hm, hlt⟩
            rcases List.mem_cons.mp hm with h | h
            · exact hij h
            · exact hjr ⟨h, hlt⟩
          rw [if_neg this]

/-- Auxiliary: a completion order that covers every element index fills
the slot array to exactly the document-order result list. -/
theorem fillSlots_covered (rs : List (Option JVal)) (order : List Nat)
    (hcov : ∀ j, j < rs.length → j ∈ order) :
    fillSlots rs order = rs := by
  apply List.ext_getElem?
  intro j
  rw [fillSlots, foldl_set_getElem rs order _ (by simp)]
  by_cases hj : j < rs.length
  · simp [hj, hcov j hj]
  · rw [if_neg (by tauto)]
    rw [List.getElem?_eq_none (by simp; omega), List.getElem?_eq_none (by omega)]

/-- C9: the recursive walker of `walk.js` recurses only into plain
objects; every other value — regexps, functions, arrays, class
instances, scalars — is passed unchanged, together with its key, to the
per-leaf callback, so custom-type payloads and patterns are never
mistaken for mappings. -/
theorem walk_plain_object_only
    (fn : JVal → Option String → Except XErr (Option JVal))
    (v : JVal) (key : Option String) (h : isPlainObject v = false) :
    jwalk fn v key = fn v key := by
  cases v <;> simp_all [isPlainObject, jwalk]

/-- Witness for C9 at a regexp leaf with a concrete callback. -/
theorem walk_plain_object_only_witness :
    isPlainObject (JVal.regexp 0) = false ∧
      jwalk (fun _ _ => pure (some (.str "x"))) (JVal.regexp 0) (some "k")
        = (fun _ _ => pure (some (.str "x"))) (JVal.regexp 0) (some "k") :=
  ⟨rfl, walk_plain_object_only _ _ _ rfl⟩

/-- C2: walking a mapping in permissive mode, an explicit null or
undefined sub-schema keeps its key with value null, an unsupported-type
sub-schema (here a number) loses its key entirely, and a string selector
resolving to the empty string also loses its key; the explicit-null keys
and the omitted keys are never conflated. -/
theorem mapping_null_vs_omission (env : XEnv) (ctx : DocCtx)
    (k1 k2 k3 k4 : String) (n : Int) (s : String)
    (rest : List (String × JVal))
    (hstrict : env.strict = false) (hct : env.customTypes = [])
    (hres : ctx.resolveSel s = some "") :
    walkVal env
        (.obj ((k1, .vnull) :: (k2, .undef) :: (k3, .num n) :: (k4, .str s) :: rest))
        ctx none
      = (walkPairs env rest ctx).map
          (fun tail => some (.obj ((k1, JVal.vnull) :: (k2, JVal.vnull) :: tail))) := by
  cases hrest : walkPairs env rest ctx <;>
    simp [walkVal, walkPairs, leafOther, unknownLeaf, findCustom, addEntry, hstrict,
      hct, hres, hrest, Except.map]

/-- Witness for C2 on a concrete permissive environment and a context
resolving every selector to the empty string. -/
theorem mapping_null_vs_omission_witness :
    plainEnv.strict = false ∧ plainEnv.customTypes = [] ∧
      emptyStrCtx.resolveSel "p" = some "" ∧
      walkVal plainEnv
          (.obj [("a", .vnull), ("b", .undef), ("c", .num 7), ("d", .str "p")])
          emptyStrCtx none
        = (walkPairs plainEnv [] emptyStrCtx).map
            (fun tail => some (.obj (("a", JVal.vnull) :: ("b", JVal.vnull) :: tail))) :=
  ⟨rfl, rfl, rfl,
    mapping_null_vs_omission plainEnv emptyStrCtx "a" "b" "c" "d" 7 "p" [] rfl rfl rfl⟩

/-- C6: when the pagination-target selector fails to resolve to a usable
URL on some page, pagination stops right there: the page's value is
incorporated, the buffer is reported as the success value, the stream is
ended with that page, no error is raised, no abort check runs and no
further page is fetched — whatever the remaining limit. -/
theorem unresolvable_target_completes (cfg : PagCfg) (lim : Option Int)
    (pages : List JVal) (obj : JVal) (rest : List Cycle)
    (hp : cfg.paginate = true) :
    runNext cfg lim pages (.page obj none :: rest)
      = { terms := [.ok (.arr (incorporate pages obj))], streamed := [(obj, true)],
          abortCalls := [], consumed := 1, buf := incorporate pages obj } := by
  rw [runNext, hp]
  simp only [if_true]
  cases h : limitLE0 (decLimit lim) <;> simp

/-- Witness for C6: a single page with an unresolvable target under an
ample limit. -/
theorem unresolvable_target_completes_witness :
    cfgPlain.paginate = true ∧
      runNext cfgPlain (some 9) [] [.page (.str "page1") none]
        = { terms := [.ok (.arr [.str "page1"])], streamed := [(.str "page1", true)],
            abortCalls := [], consumed := 1, buf := [.str "page1"] } :=
  ⟨rfl, unresolvable_target_completes cfgPlain (some 9) [] (.str "page1") [] rfl⟩

/-- C1: over any pagination run the terminal report fires at most once;
it fires exactly once as soon as the cycle sequence contains a forcing
cycle (an error or an unresolvable next-page target) — limit exhaustion
or an abort may only end the run earlier, still with a single report —
and when a fetch error and limit exhaustion coincide on the same cycle
the error alone is delivered, once. -/
theorem terminal_exactly_once (cfg : PagCfg) (lim : Option Int)
    (pages : List JVal) (trace : List Cycle) :
    (runNext cfg lim pages trace).terms.length ≤ 1 ∧
    ((∃ c ∈ trace, isTrigger c = true) →
      (runNext cfg lim pages trace).terms.length = 1) ∧
    (∀ e rest, trace = .fail e :: rest →
      (runNext cfg lim pages trace).terms = [.error e]) := by
  induction trace generalizing lim pages with
  | nil =>
      refine ⟨by simp [runNext], ?_, ?_⟩
      · rintro ⟨c, hc, -⟩
        simp at hc
      · intro e rest h
        cases h
  | cons c rest ih =>
      cases c with
      | fail e =>
          refine ⟨by simp [runNext], fun _ => by simp [runNext], ?_⟩
          intro e2 rest2 h
          cases h
          simp [runNext]
      | page obj nextUrl =>
          have hterms :
              (runNext cfg lim pages (.page obj nextUrl :: rest)).terms.length = 1 ∨
              ∃ url, nextUrl = some url ∧
                (runNext cfg lim pages (.page obj nextUrl :: rest)).terms
                  = (runNext cfg (decLimit lim) (incorporate pages obj) rest).terms := by
            rw [runNext]
            by_cases hp : cfg.paginate
            · cases h1 : limitLE0 (decLimit lim) with
              | true => simp [hp, h1]
              | false =>
                  cases nextUrl with
                  | none => simp [hp, h1]
                  | some url =>
                      cases habort : cfg.abort with
                      | none => simp [hp, h1, habort]
                      | some check =>
                          cases hchk : check obj url with
                          | true => simp [hp, h1, habort, hchk]
                          | false => simp [hp, h1, habort, hchk]
            · simp [hp]
          rcases hterms with h1 | ⟨url, hu, hterms⟩
          · exact ⟨le_of_eq h1, fun _ => h1, fun e r h => by cases h⟩
          · subst hu
            refine ⟨hterms ▸ (ih (decLimit lim) (incorporate pages obj)).1, ?_, ?_⟩
            · rintro ⟨c, hc, htrig⟩
              rcases List.mem_cons.mp hc with hhead | htail
              · subst hhead
                simp [isTrigger] at htrig
              · exact hterms ▸
                  (ih (decLimit lim) (incorporate pages obj)).2.1 ⟨c, htail, htrig⟩
            · intro e r h
              cases h

/-- Witness for C1: a run ending in URL exhaustion reports exactly once,
and a fetch error coinciding with limit exhaustion delivers the error
alone, once. -/
theorem terminal_exactly_once_witness :
    ((∃ c ∈ trace3End, isTrigger c = true) ∧
      (runNext cfgPlain none [] trace3End).terms.length = 1) ∧
    ([Cycle.fail (.fetchError "boom")] = Cycle.fail (.fetchError "boom") :: [] ∧
      (runNext cfgPlain (some 1) [] [.fail (.fetchError "boom")]).terms
        = [.error (.fetchError "boom")]) :=
  ⟨⟨⟨.page (.str "page3") none, .tail _ (.tail _ (.head _)), rfl⟩,
    (terminal_exactly_once cfgPlain none [] trace3End).2.1
      ⟨.page (.str "page3") none, .tail _ (.tail _ (.head _)), rfl⟩⟩,
   rfl,
   (terminal_exactly_once cfgPlain (some 1) [] [.fail (.fetchError "boom")]).2.2
     (.fetchError "boom") [] rfl⟩

/-- C3: with limit 3 and an abort predicate true on page 2's result,
exactly two cycles run and the report covers pages 1–2, whatever would
come third; the limit counts pages, not extracted items (two array pages
of three and two items still count as two pages); and an unbounded limit
consumes every cycle while targets stay resolvable and no abort fires. -/
theorem limit_counts_pages (junk1 junk2 : List Cycle) :
    ((runNext cfgAbort2 (some 3) [] (trace3.take 2 ++ junk1)).consumed = 2 ∧
     (runNext cfgAbort2 (some 3) [] (trace3.take 2 ++ junk1)).terms
        = [.ok (.arr [.str "page1", .str "page2"])]) ∧
    ((runNext cfgPlain (some 2) []
        (.page (.arr [.str "i1", .str "i2", .str "i3"]) (some "u2") ::
          .page (.arr [.str "i4", .str "i5"]) (some "u3") :: junk2)).consumed = 2 ∧
     (runNext cfgPlain (some 2) []
        (.page (.arr [.str "i1", .str "i2", .str "i3"]) (some "u2") ::
          .page (.arr [.str "i4", .str "i5"]) (some "u3") :: junk2)).terms
        = [.ok (.arr [.str "i1", .str "i2", .str "i3", .str "i4", .str "i5"])]) ∧
    (∀ (pages : List JVal) (trace : List Cycle),
      (∀ c ∈ trace, ∃ obj u, c = .page obj (some u)) →
      (runNext cfgPlain none pages trace).consumed = trace.length) := by
  refine ⟨⟨?_, ?_⟩, ⟨?_, ?_⟩, ?_⟩
  · simp [runNext, trace3, cfgAbort2, abortOnPage2, decLimit, limitLE0, incorporate]
  · simp [runNext, trace3, cfgAbort2, abortOnPage2, decLimit, limitLE0, incorporate]
  · simp [runNext, cfgPlain, decLimit, limitLE0, incorporate]
  · simp [runNext, cfgPlain, decLimit, limitLE0, incorporate]
  · intro pages trace h
    induction trace generalizing pages with
    | nil => simp [runNext]
    | cons c rest ih =>
        obtain ⟨obj, u, rfl⟩ := h c (.head _)
        have hrest : ∀ c2 ∈ rest, ∃ obj u, c2 = Cycle.page obj (some u) :=
          fun c2 hc2 => h c2 (.tail _ hc2)
        have ihh := ih (incorporate pages obj) hrest
        simp [runNext, cfgPlain, decLimit, limitLE0] at ihh ⊢
        omega

/-- Witness for C3's unbounded-limit clause on a concrete two-page
trace with resolvable targets. -/
theorem limit_counts_pages_witness :
    (∀ c ∈ trace3.take 2, ∃ obj u, c = Cycle.page obj (some u)) ∧
      (runNext cfgPlain none [] (trace3.take 2)).consumed = 2 := by
  have hmem : ∀ c ∈ trace3.take 2, ∃ obj u, c = Cycle.page obj (some u) := by
    intro c hc
    simp [trace3] at hc
    rcases hc with rfl | rfl
    · exact ⟨.str "page1", "u2", rfl⟩
    · exact ⟨.str "page2", "u3", rfl⟩
  refine ⟨hmem, ?_⟩
  have h2 := (limit_counts_pages [] []).2.2 [] (trace3.take 2) hmem
  simpa [trace3] using h2

/-- C4 counterexample: with a non-collection root (plain string pages),
the result callback at the terminal transition receives the whole pages
buffer, which differs from the latest page's walked value. -/
theorem latest_page_not_reported :
    (runNext cfgPlain (some 2) []
        [.page (.str "a") (some "u2"), .page (.str "b") none]).terms
      = [.ok (.arr [.str "a", .str "b"])] ∧
    JVal.arr [.str "a", .str "b"] ≠ .str "b" := by
  exact ⟨rfl, by simp⟩

/-- C4 amended: every successful terminal report delivers the internal
buffer of all page values (one entry per non-collection page, pushed in
page order) — the buffer is kept and it is exactly what is reported. -/
theorem report_is_buffer (cfg : PagCfg) (lim : Option Int)
    (pages : List JVal) (trace : List Cycle)
    (hp : cfg.paginate = true) :
    ∀ v, Except.ok v ∈ (runNext cfg lim pages trace).terms →
      v = .arr (runNext cfg lim pages trace).buf := by
  induction trace generalizing lim pages with
  | nil => intro v hv; simp [runNext] at hv
  | cons c rest ih =>
      cases c with
      | fail e => intro v hv; simp [runNext] at hv
      | page obj nextUrl =>
          have key :
              ((runNext cfg lim pages (.page obj nextUrl :: rest)).terms
                  = [.ok (.arr (incorporate pages obj))] ∧
               (runNext cfg lim pages (.page obj nextUrl :: rest)).buf
                  = incorporate pages obj) ∨
              ((runNext cfg lim pages (.page obj nextUrl :: rest)).terms
                  = (runNext cfg (decLimit lim) (incorporate pages obj) rest).terms ∧
               (runNext cfg lim pages (.page obj nextUrl :: rest)).buf
                  = (runNext cfg (decLimit lim) (incorporate pages obj) rest).buf) := by
            rw [runNext]
            cases h1 : limitLE0 (decLimit lim) with
            | true => simp [hp, h1]
            | false =>
                cases nextUrl with
                | none => simp [hp, h1]
                | some url =>
                    cases habort : cfg.abort with
                    | none => simp [hp, h1, habort]
                    | some check =>
                        cases hchk : check obj url with
                        | true => simp [hp, h1, habort, hchk]
                        | false => simp [hp, h1, habort, hchk]
          intro v hv
          rcases key with ⟨ht, hb⟩ | ⟨ht, hb⟩
          · rw [ht] at hv
            simp at hv
            rw [hb, hv]
          · rw [ht] at hv
            rw [hb]
            exact ih (decLimit lim) (incorporate pages obj) v hv

/-- Witness for C4's amended theorem on a one-page run ending by URL
exhaustion. -/
theorem report_is_buffer_witness :
    cfgPlain.paginate = true ∧
      Except.ok (JVal.arr [.str "z"])
        ∈ (runNext cfgPlain (some 5) [] [.page (.str "z") none]).terms ∧
      JVal.arr [.str "z"]
        = .arr (runNext cfgPlain (some 5) [] [.page (.str "z") none]).buf :=
  ⟨rfl, List.Mem.head _,
    report_is_buffer cfgPlain (some 5) [] [.page (.str "z") none] rfl
      (.arr [.str "z"]) (List.Mem.head _)⟩

/-- C5 counterexample: the abort predicate receives the current page's
walked value, not the accumulated result.  With a predicate true exactly
on page 2's value, the source controller stops after two cycles, while a
controller that fed the predicate the accumulation (following the
claim's words) would run all three. -/
theorem abort_arg_counterexample :
    (runNext cfgAbort2 none [] trace3End).consumed = 2 ∧
    (runNextSpecAbort cfgAbort2 none [] trace3End).consumed = 3 :=
  ⟨rfl, rfl⟩

/-- C5 amended: the abort predicate is always invoked with a current
page's walked value and that page's resolved candidate next-page URL
(never the accumulation), and when it returns true the run reports the
accumulated buffer. -/
theorem abort_gets_current_page (cfg : PagCfg) (lim : Option Int)
    (pages : List JVal) (trace : List Cycle) :
    (∀ v u, (v, u) ∈ (runNext cfg lim pages trace).abortCalls →
        Cycle.page v (some u) ∈ trace) ∧
    (runNext cfgAbort2 none [] trace3End).terms
      = [.ok (.arr [.str "page1", .str "page2"])] := by
  constructor
  · induction trace generalizing lim pages with
    | nil => intro v u hv; simp [runNext] at hv
    | cons c rest ih =>
        cases c with
        | fail e => intro v u hv; simp [runNext] at hv
        | page obj nextUrl =>
            intro v u hv
            rw [runNext] at hv
            by_cases hp : cfg.paginate
            · cases h1 : limitLE0 (decLimit lim) with
              | true => simp [hp, h1] at hv
              | false =>
                  cases nextUrl with
                  | none => simp [hp, h1] at hv
                  | some url =>
                      cases habort : cfg.abort with
                      | none =>
                          simp [hp, h1, habort] at hv
                          exact .tail _ (ih (decLimit lim) (incorporate pages obj) v u hv)
                      | some check =>
                          cases hchk : check obj url with
                          | true =>
                              simp [hp, h1, habort, hchk] at hv
                              rcases hv with ⟨rfl, rfl⟩
                              exact .head _
                          | false =>
                              simp [hp, h1, habort, hchk] at hv
                              rcases hv with ⟨rfl, rfl⟩ | hv
                              · exact .head _
                              · exact .tail _
                                  (ih (decLimit lim) (incorporate pages obj) v u hv)
            · simp [hp] at hv
  · rfl

/-- Witness for C5's amended theorem: the first recorded abort invocation
carries page 1's own value and its candidate URL. -/
theorem abort_gets_current_page_witness :
    (JVal.str "page1", "u2") ∈ (runNext cfgAbort2 none [] trace3End).abortCalls ∧
      Cycle.page (.str "page1") (some "u2") ∈ trace3End :=
  ⟨List.Mem.head _,
    (abort_gets_current_page cfgAbort2 none [] trace3End).1 (.str "page1") "u2"
      (List.Mem.head _)⟩

/-- C7: for a sequence-of-mapping schema, an empty scope match yields the
empty list (never an error); otherwise the output is the compacted list
of per-element sub-walk results taken in document order of the scope
elements, and any completion order covering every element index fills
the slot array to exactly that document-order list. -/
theorem sequence_document_order (env : XEnv) (kvs : List (String × JVal))
    (tailSel : List JVal) (ctx : DocCtx) (key : Option String)
    (hct : env.customTypes = []) :
    (ctx.scopeElems = [] →
      walkVal env (.arr (.obj kvs :: tailSel)) ctx key = .ok (some (.arr []))) ∧
    (∀ rs, walkElems env (.obj kvs) ctx.scopeElems = .ok rs →
      walkVal env (.arr (.obj kvs :: tailSel)) ctx key
          = .ok (some (.arr (compact rs))) ∧
      ∀ order : List Nat, (∀ j, j < rs.length → j ∈ order) →
        compact (fillSlots rs order) = compact rs) := by
  constructor
  · intro hse
    rw [walkVal]
    · simp [hct, findCustom, jsTypeofObject, hse]
      rfl
    · intro s h
      cases h
  · intro rs hrs
    constructor
    · rw [walkVal]
      · cases hse : ctx.scopeElems with
        | nil =>
            rw [hse] at hrs
            rw [walkElems] at hrs
            cases hrs
            simp [hct, findCustom, jsTypeofObject, hse, compact]
            try rfl
        | cons e es =>
            rw [hse] at hrs
            simp [hct, findCustom, jsTypeofObject, hse, hrs]
            try rfl
      · intro s h
        cases h
    · intro order hcov
      rw [fillSlots_covered rs order hcov]

/-- Witness for C7: two scope elements, walked out of document order
(completion order `[1, 0]`), still assemble in document order. -/
theorem sequence_document_order_witness :
    plainEnv.customTypes = [] ∧
      walkElems plainEnv (.obj [("t", .str "h2")]) seqCtx.scopeElems
        = .ok [some (.obj [("t", .str "one")]), some (.obj [("t", .str "two")])] ∧
      walkVal plainEnv (.arr [.obj [("t", .str "h2")]]) seqCtx none
        = .ok (some (.arr [.obj [("t", .str "one")], .obj [("t", .str "two")]])) ∧
      compact (fillSlots
          [some (.obj [("t", .str "one")]), some (.obj [("t", .str "two")])] [1, 0])
        = compact [some (.obj [("t", .str "one")]), some (.obj [("t", .str "two")])] := by
  have hct : plainEnv.customTypes = [] := rfl
  have hw : walkElems plainEnv (.obj [("t", .str "h2")]) seqCtx.scopeElems
      = .ok [some (.obj [("t", .str "one")]), some (.obj [("t", .str "two")])] := by
    simp [walkElems, walkVal, walkPairs, seqCtx, elemCtx, plainEnv, addEntry,
      DocCtx.scopeElems, DocCtx.resolveSel]
    rfl
  have happ := (sequence_document_order plainEnv [("t", .str "h2")] [] seqCtx none hct).2
    [some (.obj [("t", .str "one")]), some (.obj [("t", .str "two")])] hw
  refine ⟨hct, hw, ?_, happ.2 [1, 0] (by decide)⟩
  have h1 := happ.1
  simpa [compact] using h1

/-- C8 counterexample: in strict mode with a URL source, the first cycle
fetches before validating — the type validation happens inside
`WalkHTML`, after `request` has returned — so validation is not
performed before network activity. -/
theorem validate_after_fetch_counterexample :
    nodeEvents true (.url "http://a.example") none none
      = [.fetch "http://a.example", .validate, .walkStart] ∧
    validateBeforeFetch (nodeEvents true (.url "http://a.example") none none)
      = false :=
  ⟨rfl, rfl⟩

/-- C8 amended: in strict mode the type validation runs at the start of
`WalkHTML`, before any walking of the document, on every cycle; for an
inline-HTML source (no `@`-scope) no fetch precedes it, but a URL source
is fetched first. -/
theorem validate_before_walk (src : Source) (scope res : Option String) :
    (∃ pre, nodeEvents true src scope res = pre ++ [.validate, .walkStart]) ∧
    (∀ h, scopeHasAt scope = false →
      nodeEvents true (.html h) scope res = [.validate, .walkStart]) := by
  constructor
  · cases hd : nodeDispatch src scope res with
    | fetched u =>
        refine ⟨[.fetch u], ?_⟩
        rw [nodeEvents, hd]
        rfl
    | inline h =>
        refine ⟨[], ?_⟩
        rw [nodeEvents, hd]
        rfl
    | emptyDoc =>
        refine ⟨[], ?_⟩
        rw [nodeEvents, hd]
        rfl
  · intro h hsc
    rw [nodeEvents, nodeDispatch.eq_def]
    simp [hsc]
    rfl

/-- Witness for C8's amended theorem on an inline-HTML run without an
`@`-scope. -/
theorem validate_before_walk_witness :
    scopeHasAt none = false ∧
      nodeEvents true (.html "<p>x</p>") none none = [.validate, .walkStart] :=
  ⟨rfl, (validate_before_walk (.html "<p>x</p>") none none).2 "<p>x</p>" rfl⟩

/-- Auxiliary: `noFnSelPairs` bounds every entry of a mapping. -/
theorem noFnSelPairs_mem :
    ∀ (kvs : List (String × JVal)), noFnSelPairs kvs = true →
      ∀ k v, (k, v) ∈ kvs → noFnSel v = true := by
  intro kvs
  induction kvs with
  | nil =>
      intro _ k v hm
      cases hm
  | cons kv rest ih =>
      intro hall k v hm
      obtain ⟨k2, v2⟩ := kv
      rw [noFnSelPairs] at hall
      rcases List.mem_cons.mp hm with h | h
      · cases h
        exact (Bool.and_eq_true_iff.mp hall).1
      · exact ih (Bool.and_eq_true_iff.mp hall).2 k v h

/-- Auxiliary: `noFnSelList` bounds every element of a sequence. -/
theorem noFnSelList_head (x : JVal) (xs : List JVal)
    (h : noFnSelList (x :: xs) = true) : noFnSel x = true := by
  rw [noFnSelList] at h
  exact (Bool.and_eq_true_iff.mp h).1

/-- Auxiliary: entrywise-successful walks make `walkPairs` succeed. -/
theorem walkPairs_ok (env : XEnv) :
    ∀ (kvs : List (String × JVal)) (ctx : DocCtx),
      (∀ k v, (k, v) ∈ kvs → ∃ r, walkVal env v ctx (some k) = .ok r) →
      ∃ out, walkPairs env kvs ctx = .ok out := by
  intro kvs
  induction kvs with
  | nil =>
      intro ctx _
      exact ⟨[], by rw [walkPairs]; rfl⟩
  | cons kv rest ih =>
      intro ctx hall
      obtain ⟨k, v⟩ := kv
      obtain ⟨r, hr⟩ := hall k v (.head _)
      obtain ⟨out, hout⟩ := ih ctx fun k2 v2 hm => hall k2 v2 (.tail _ hm)
      refine ⟨addEntry k r out, ?_⟩
      rw [walkPairs]
      simp only [hr, hout]
      rfl

/-- Auxiliary: elementwise-successful walks make `walkElems` succeed. -/
theorem walkElems_ok (env : XEnv) (v0 : JVal) :
    ∀ (cs : List DocCtx),
      (∀ ctx2 key2, ∃ r, walkVal env v0 ctx2 key2 = .ok r) →
      ∃ rs, walkElems env v0 cs = .ok rs := by
  intro cs h
  induction cs with
  | nil => exact ⟨[], by rw [walkElems]; rfl⟩
  | cons c rest ih =>
      obtain ⟨r, hr⟩ := h c none
      obtain ⟨rs, hrs⟩ := ih
      refine ⟨r :: rs, ?_⟩
      rw [walkElems]
      simp only [hr, hrs]
      rfl

/-- Auxiliary: in permissive mode with no custom types registered, a
schema free of function selectors always walks without error, on any
document context. -/
theorem walkVal_ok (env : XEnv) (hs : env.strict = false)
    (hct : env.customTypes = []) :
    ∀ (n : Nat) (sel : JVal), sizeOf sel ≤ n → noFnSel sel = true →
      ∀ (ctx : DocCtx) (key : Option String),
        ∃ v, walkVal env sel ctx key = .ok v := by
  intro n
  induction n with
  | zero =>
      intro sel hsz
      exfalso
      cases sel <;> simp at hsz
  | succ n ih =>
      intro sel hsz hfn ctx key
      cases sel with
      | vnull => exact ⟨some .vnull, by rw [walkVal]; rfl⟩
      | undef => exact ⟨some .vnull, by rw [walkVal]; rfl⟩
      | str s => exact ⟨(ctx.resolveSel s).map .str, by rw [walkVal]; rfl⟩
      | fnSel fid => simp [noFnSel] at hfn
      | regexp rid =>
          cases hm : env.regexMatch rid ctx.fullText with
          | none =>
              refine ⟨some .vnull, ?_⟩
              rw [walkVal]
              simp only [hm]
              rfl
          | some p =>
              obtain ⟨full, grp⟩ := p
              refine ⟨some (.str (grp.getD full)), ?_⟩
              rw [walkVal]
              simp only [hm]
              rfl
      | num n2 =>
          refine ⟨none, ?_⟩
          rw [walkVal]
          simp [leafOther, findCustom, hct, unknownLeaf, hs]
          try rfl
      | boolean b =>
          refine ⟨none, ?_⟩
          rw [walkVal]
          simp [leafOther, findCustom, hct, unknownLeaf, hs]
          try rfl
      | custom t =>
          refine ⟨none, ?_⟩
          rw [walkVal]
          simp [leafOther, findCustom, hct, unknownLeaf, hs]
          try rfl
      | obj kvs =>
          have hpt : ∀ k v, (k, v) ∈ kvs → ∃ r, walkVal env v ctx (some k) = .ok r := by
            intro k v hm
            have h1 := List.sizeOf_lt_of_mem hm
            have h2 : sizeOf (JVal.obj kvs) = 1 + sizeOf kvs := by simp
            have h3 : sizeOf (k, v) = 1 + sizeOf k + sizeOf v := by simp
            have hfn2 : noFnSel v = true := by
              rw [noFnSel] at hfn
              exact noFnSelPairs_mem kvs hfn k v hm
            exact ih v (by omega) hfn2 ctx (some k)
          obtain ⟨out, hout⟩ := walkPairs_ok env kvs ctx hpt
          refine ⟨some (.obj out), ?_⟩
          rw [walkVal]
          simp only [hout]
          rfl
      | arr xs =>
          have hfc : findCustom env.customTypes (.arr xs) = none := by
            rw [hct]
            rfl
          cases xs with
          | nil =>
              refine ⟨none, ?_⟩
              rw [walkVal]
              simp [hfc, unknownLeaf, hs]
              try rfl
          | cons x rest =>
              by_cases hxstr : ∃ s, x = JVal.str s
              · obtain ⟨s, rfl⟩ := hxstr
                refine ⟨some (.arr ((ctx.resolveArrSel s).map JVal.str)), ?_⟩
                rw [walkVal]
                simp [hfc]
                try rfl
              · cases hobj : jsTypeofObject x with
                | false =>
                    refine ⟨none, ?_⟩
                    rw [walkVal]
                    · simp [hfc, hobj, unknownLeaf, hs]
                      try rfl
                    · intro s h
                      exact hxstr ⟨s, h⟩
                | true =>
                    cases hse : ctx.scopeElems with
                    | nil =>
                        refine ⟨some (.arr []), ?_⟩
                        rw [walkVal]
                        · simp [hfc, hobj, hse]
                          try rfl
                        · intro s h
                          exact hxstr ⟨s, h⟩
                    | cons e es =>
                        have hx_sz : sizeOf x ≤ n := by
                          have h1 : sizeOf (JVal.arr (x :: rest))
                              = 1 + (1 + sizeOf x + sizeOf rest) := by simp
                          omega
                        have hx_fn : noFnSel x = true := by
                          rw [noFnSel] at hfn
                          exact noFnSelList_head x rest hfn
                        obtain ⟨rs, hrs⟩ := walkElems_ok env x (e :: es)
                          fun ctx2 key2 => ih x hx_sz hx_fn ctx2 key2
                        refine ⟨some (.arr (compact rs)), ?_⟩
                        rw [walkVal]
                        · simp [hfc, hobj, hse, hrs]
                          try rfl
                        · intro s h
                          exact hxstr ⟨s, h⟩

/-- C10: a falsy source (with no `@`-scope, or one that resolves to no
URL from a falsy source), and a truthy non-URL source whose composed
`@`-scope does not resolve to a URL, both walk the empty document; and
walking any function-selector-free schema in permissive mode with no
custom types registered completes successfully on any context — in
particular on the empty document — rather than reporting an error. -/
theorem empty_document_fallback :
    (∀ (scope r : Option String), scopeHasAt scope = false →
        nodeDispatch .falsy scope r = .emptyDoc) ∧
    (∀ scope : Option String, nodeDispatch .falsy scope none = .emptyDoc) ∧
    (∀ (h : String) (scope : Option String), scopeHasAt scope = true →
        nodeDispatch (.html h) scope none = .emptyDoc) ∧
    (∀ (env : XEnv) (sel : JVal), env.strict = false → env.customTypes = [] →
        noFnSel sel = true → ∀ ctx : DocCtx,
          ∃ v, walkHTML env sel ctx = .ok v) := by
  refine ⟨?_, ?_, ?_, ?_⟩
  · intro scope r hsc
    rw [nodeDispatch.eq_def]
    simp [hsc]
  · intro scope
    rw [nodeDispatch.eq_def]
    cases hsc : scopeHasAt scope <;> simp [hsc]
  · intro h scope hsc
    rw [nodeDispatch.eq_def]
    simp [hsc]
  · intro env sel hs hct hfn ctx
    obtain ⟨v, hv⟩ := walkVal_ok env hs hct (sizeOf sel) sel le_rfl hfn ctx none
    refine ⟨v, ?_⟩
    rw [walkHTML, hs]
    simpa using hv

/-- Witness for C10: a falsy source walks the empty document, and a
mapping of a null leaf and a string leaf walks the empty document
successfully. -/
theorem empty_document_fallback_witness :
    scopeHasAt (some "li") = false ∧
      nodeDispatch .falsy (some "li") none = .emptyDoc ∧
      plainEnv.strict = false ∧ plainEnv.customTypes = [] ∧
      noFnSel (.obj [("a", .vnull), ("b", .str "h1")]) = true ∧
      ∃ v, walkHTML plainEnv (.obj [("a", .vnull), ("b", .str "h1")]) emptyCtx
        = .ok v := by
  have hsc : scopeHasAt (some "li") = false := by
    rw [scopeHasAt]
    rfl
  have hfn : noFnSel (.obj [("a", .vnull), ("b", .str "h1")]) = true := by
    simp [noFnSel, noFnSelPairs]
  refine ⟨hsc, empty_document_fallback.1 (some "li") none hsc, rfl, rfl, hfn, ?_⟩
  exact empty_document_fallback.2.2.2 plainEnv (.obj [("a", .vnull), ("b", .str "h1")])
    rfl rfl hfn emptyCtx

end XRayModel
